import Mathlib

/-!
Verification of the layout/rendering engine of `present2pdf`
(`internal/converter`): comment-escape preprocessing, HTML-subset
splitting, inline formatting, code-token line splitting, truncation
policy, image fitting and the per-slide overflow loop.

Strings are embedded as `List Char`; the PDF coordinate arithmetic
(float64 in Go) is embedded over `ℚ`; the external collaborators
(chroma lexer/style, gofpdf string widths, the OS image loader) are
oracles packaged in `RenderEnv`.
-/

namespace P2PDF

/-- `strings.Contains`-style substring test over char lists. -/
def containsSeq (pat : List Char) : List Char → Bool
  | [] => pat.isEmpty
  | c :: cs => pat.isPrefixOf (c :: cs) || containsSeq pat cs

/-- Earliest index `j` with `pat` a prefix of the suffix starting at `j`
(the non-greedy search used by every `.*?` closing-tag scan). -/
def findSub (pat : List Char) : List Char → Option ℕ
  | [] => if pat.isEmpty then some 0 else none
  | c :: cs =>
    if pat.isPrefixOf (c :: cs) then some 0
    else (findSub pat cs).map (· + 1)

/-- `strings.Split(s, "\n")` : always returns at least one part. -/
def splitOnNl : List Char → List (List Char)
  | [] => [[]]
  | c :: cs =>
    let r := splitOnNl cs
    if c = '\n' then [] :: r
    else
      match r with
      | [] => [[c]]
      | h :: t => (c :: h) :: t

/-- Index of the last newline of a char list, if any. -/
def lastNlPos : List Char → Option ℕ
  | [] => none
  | c :: cs =>
    match lastNlPos cs with
    | some j => some (j + 1)
    | none => if c = '\n' then some 0 else none

/-- The whitespace class of Go `regexp` `\s` / `strings.TrimSpace` (ASCII part). -/
def isSpaceChar (c : Char) : Bool :=
  c = ' ' || c = '\t' || c = '\n' || c = '\r' || c = '\x0c'

/-- The word class of Go `regexp` `\w`. -/
def isWordChar (c : Char) : Bool :=
  c.isAlphanum || c = '_'

/-- `strings.TrimSpace` (over the ASCII whitespace class). -/
def trimSpace (s : List Char) : List Char :=
  ((s.dropWhile isSpaceChar).reverse.dropWhile isSpaceChar).reverse

/-- `strings.ToLower`, per character. -/
def lowerStr (s : List Char) : List Char :=
  s.map Char.toLower

/-- `strings.Fields`: whitespace-separated words.  First argument counts
characters still to skip from a word already emitted. -/
def fieldsGo : ℕ → List Char → List (List Char)
  | _, [] => []
  | k+1, _ :: cs => fieldsGo k cs
  | 0, c :: cs =>
    if isSpaceChar c then fieldsGo 0 cs
    else
      let w := (c :: cs).takeWhile (fun d => !isSpaceChar d)
      w :: fieldsGo (w.length - 1) cs

def fieldsOf (s : List Char) : List (List Char) :=
  fieldsGo 0 s

/-- For `rest` the text after a `<`: length of the `[^>]+` interior when the
tag pattern `<[^>]+>` matches here, i.e. a nonempty run of non-`>` chars
followed by `>`. -/
def tagInnerLen (rest : List Char) : Option ℕ :=
  let inner := rest.takeWhile (fun c => c != '>')
  if inner.length ≠ 0 ∧ inner.length < rest.length then some inner.length else none

/-- One pass of `strings.ReplaceAll` (callers always pass a nonempty
pattern); first argument counts characters of a replaced occurrence still
to skip. -/
def replaceAllGo (pat rep : List Char) : ℕ → List Char → List Char
  | _, [] => []
  | k+1, _ :: cs => replaceAllGo pat rep k cs
  | 0, c :: cs =>
    if pat.isPrefixOf (c :: cs) then
      rep ++ replaceAllGo pat rep (pat.length - 1) cs
    else
      c :: replaceAllGo pat rep 0 cs

/-- `strings.ReplaceAll pat rep s` (leftmost, non-overlapping). -/
def replaceAll (pat rep s : List Char) : List Char :=
  replaceAllGo pat rep 0 s

/-- `decodeHTMLEntities` from `render_html.go`: the fixed chain of seven
`strings.ReplaceAll` steps. -/
def decodeHTMLEntities (s : List Char) : List Char :=
  let s1 := replaceAll "&lt;".toList "<".toList s
  let s2 := replaceAll "&gt;".toList ">".toList s1
  let s3 := replaceAll "&amp;".toList "&".toList s2
  let s4 := replaceAll "&quot;".toList "\"".toList s3
  let s5 := replaceAll "&#39;".toList ['\''] s4
  let s6 := replaceAll "&#34;".toList "\"".toList s5
  replaceAll "&apos;".toList ['\''] s6

/-- `true` when none of the seven entity references occurs in `s`. -/
def noEntity (s : List Char) : Bool :=
  !containsSeq "&lt;".toList s && !containsSeq "&gt;".toList s &&
  !containsSeq "&amp;".toList s && !containsSeq "&quot;".toList s &&
  !containsSeq "&#39;".toList s && !containsSeq "&#34;".toList s &&
  !containsSeq "&apos;".toList s

theorem replaceAllGo_zero_of_not_contains (pat rep : List Char)
    (s : List Char) (h : containsSeq pat s = false) :
    replaceAllGo pat rep 0 s = s := by
  induction s with
  | nil => rfl
  | cons c cs ih =>
    simp only [containsSeq, Bool.or_eq_false_iff] at h
    simp only [replaceAllGo, h.1, ih h.2, if_false, Bool.false_eq_true]

theorem replaceAll_of_not_contains (pat rep : List Char)
    (s : List Char) (h : containsSeq pat s = false) :
    replaceAll pat rep s = s :=
  replaceAllGo_zero_of_not_contains pat rep s h

theorem decode_id_of_noEntity (s : List Char) (h : noEntity s = true) :
    decodeHTMLEntities s = s := by
  simp only [noEntity, Bool.and_eq_true, Bool.not_eq_true'] at h
  obtain ⟨⟨⟨⟨⟨⟨h1, h2⟩, h3⟩, h4⟩, h5⟩, h6⟩, h7⟩ := h
  simp only [decodeHTMLEntities]
  rw [replaceAll_of_not_contains _ _ _ h1, replaceAll_of_not_contains _ _ _ h2,
    replaceAll_of_not_contains _ _ _ h3, replaceAll_of_not_contains _ _ _ h4,
    replaceAll_of_not_contains _ _ _ h5, replaceAll_of_not_contains _ _ _ h6,
    replaceAll_of_not_contains _ _ _ h7]

/-- Modelled from the spec: the source file defining
`preprocessMarkdownComments` is absent from `src/` (only
`converter_test.go` exercises it), so the comment-escape preprocessor is
modelled from section 4.1 of the spec.  The invisible marker: U+200C
(zero-width non-joiner). -/
def escMarker : List Char := ['\u200C']

/-- Modelled from the spec: a fence-toggling line is one whose content is a
triple-backtick marker, optionally followed by a language tag. -/
def isFenceLine (l : List Char) : Bool :=
  "```".toList.isPrefixOf l

/-- Modelled from the spec: the comment-introducing sequences at column 0
inside a fence are `//` and `#` (covering `#`, `#!`, `##` — the spec's edge
case requires `##` inside a fence to be escaped as well). -/
def isCommentStart (l : List Char) : Bool :=
  "//".toList.isPrefixOf l || "#".toList.isPrefixOf l

/-- Modelled from the spec: one line of the preprocessor — fence lines
toggle the state, comment-introducing lines inside a fence gain the
marker, every other line is returned untouched. -/
def preprocessLine (inFence : Bool) (l : List Char) : Bool × List Char :=
  if isFenceLine l then (!inFence, l)
  else if inFence && isCommentStart l then (inFence, escMarker ++ l)
  else (inFence, l)

/-- Modelled from the spec: fold of `preprocessLine` over the lines. -/
def preprocessLinesFrom (inFence : Bool) : List (List Char) → List (List Char)
  | [] => []
  | l :: ls =>
    let p := preprocessLine inFence l
    p.2 :: preprocessLinesFrom p.1 ls

/-- Modelled from the spec: `preprocessMarkdownComments`, over the
document's lines, starting outside any fence. -/
def preprocessMarkdownComments (doc : List (List Char)) : List (List Char) :=
  preprocessLinesFrom false doc

theorem preprocessLinesFrom_no_fence (doc : List (List Char))
    (h : ∀ l ∈ doc, isFenceLine l = false) :
    preprocessLinesFrom false doc = doc := by
  induction doc with
  | nil => rfl
  | cons l ls ih =>
    have hl : isFenceLine l = false := h l (List.mem_cons_self l ls)
    have hr : preprocessLinesFrom false ls = ls :=
      ih fun x hx => h x (List.mem_cons_of_mem l hx)
    simp [preprocessLinesFrom, preprocessLine, hl, hr]

/-- C1: the comment-escape preprocessor is a no-op outside fenced code
regions — a document with no triple-backtick fences is returned unchanged
and any line processed outside a fence is untouched — while a line inside
a fence beginning at column 0 with `//`, `#`, `#!` or `##` has the
zero-width marker U+200C prepended (shown pointwise and on a document
holding the spec's examples both inside and outside a fence). -/
theorem c1_preprocess_comment_escape :
    (∀ doc : List (List Char), (∀ l ∈ doc, isFenceLine l = false) →
        preprocessMarkdownComments doc = doc)
    ∧ (∀ l : List Char, isFenceLine l = false → isCommentStart l = true →
        preprocessLine true l = (true, escMarker ++ l))
    ∧ (∀ l : List Char, (preprocessLine false l).2 = l)
    ∧ preprocessMarkdownComments
        ["// note".toList, "## heading".toList, "```go".toList,
         "// note".toList, "## heading".toList, "#!x".toList, "# c".toList,
         "```".toList, "// note".toList, "## heading".toList]
      = ["// note".toList, "## heading".toList, "```go".toList,
         escMarker ++ "// note".toList, escMarker ++ "## heading".toList,
         escMarker ++ "#!x".toList, escMarker ++ "# c".toList,
         "```".toList, "// note".toList, "## heading".toList] := by
  refine ⟨preprocessLinesFrom_no_fence, ?_, ?_, by decide⟩
  · intro l h1 h2
    simp [preprocessLine, h1, h2]
  · intro l
    cases hf : isFenceLine l <;> simp [preprocessLine, hf]

/-- C1 witness: the preprocessor leaves a fence-free document unchanged and
marks a `//` line inside a fence. -/
theorem c1_preprocess_comment_escape_witness :
    preprocessMarkdownComments ["hello".toList, "// x".toList]
      = ["hello".toList, "// x".toList]
    ∧ preprocessLine true "// x".toList = (true, escMarker ++ "// x".toList) :=
  ⟨c1_preprocess_comment_escape.1 _ (by decide),
   c1_preprocess_comment_escape.2.1 _ (by decide) (by decide)⟩

/-- C9 counterexample: entity decoding is not idempotent on every string —
decoding `"&amp;lt;"` yields `"&lt;"`, and decoding again yields `"<"`. -/
theorem c9_decode_counterexample :
    decodeHTMLEntities (decodeHTMLEntities "&amp;lt;".toList) ≠
      decodeHTMLEntities "&amp;lt;".toList := by decide

/-- C9 (amended): entity decoding is idempotent on already-decoded text —
any string whose decoding contains no further entity reference — and
round-trips the standard references: decoding
`"&lt;x&gt; &amp; &quot;y&quot;"` gives `<x> & "y"`. -/
theorem c9_decode_idempotent_amended :
    (∀ s : List Char, noEntity (decodeHTMLEntities s) = true →
        decodeHTMLEntities (decodeHTMLEntities s) = decodeHTMLEntities s)
    ∧ decodeHTMLEntities "&lt;x&gt; &amp; &quot;y&quot;".toList
        = "<x> & \"y\"".toList :=
  ⟨fun _ h => decode_id_of_noEntity _ h, by decide⟩

/-- C9 witness: idempotence at the spec's round-trip example. -/
theorem c9_decode_idempotent_amended_witness :
    decodeHTMLEntities (decodeHTMLEntities "&lt;x&gt; &amp; &quot;y&quot;".toList)
      = decodeHTMLEntities "&lt;x&gt; &amp; &quot;y&quot;".toList :=
  c9_decode_idempotent_amended.1 _ (by decide)

/-- A syntax-highlighted token (`Token` in `render_code.go`): chroma token
type, text, RGB color. -/
structure Tok where
  type : Int
  value : List Char
  color : Int × Int × Int
deriving DecidableEq

/-- `l` with its newline characters removed. -/
def removeNl (l : List Char) : List Char :=
  l.filter (fun c => c != '\n')

/-- Inner loop of `splitTokensIntoLines` for the parts after the first of
one token's `strings.Split(value, "\n")`: each part closes the current
line (even if empty) and, when nonempty, starts the next line. -/
def consumeRest (t : Tok) : List Tok → List (List Char) → List (List Tok) × List Tok
  | cur, [] => ([], cur)
  | cur, p :: ps =>
    let newCur : List Tok := if p = [] then [] else [⟨t.type, p, t.color⟩]
    let r := consumeRest t newCur ps
    (cur :: r.1, r.2)

/-- Inner loop of `splitTokensIntoLines` over one token's parts: the first
part (index 0) extends the current line when nonempty. -/
def consumeParts (t : Tok) (cur : List Tok) :
    List (List Char) → List (List Tok) × List Tok
  | [] => ([], cur)
  | p :: ps =>
    let cur1 : List Tok := if p = [] then cur else cur ++ [⟨t.type, p, t.color⟩]
    consumeRest t cur1 ps

/-- Outer loop of `splitTokensIntoLines`; the final `lines = append(lines,
currentLine)` is the `[cur]` of the base case. -/
def splitLoop : List Tok → List Tok → List (List Tok)
  | [], cur => [cur]
  | t :: ts, cur =>
    let r := consumeParts t cur (splitOnNl t.value)
    r.1 ++ splitLoop ts r.2

/-- `splitTokensIntoLines` from `render_code.go`: empty input short-circuits
to no lines. -/
def splitTokensIntoLines : List Tok → List (List Tok)
  | [] => []
  | t :: ts => splitLoop (t :: ts) []

/-- Total number of newline characters embedded in a token stream. -/
def toksNlCount (ts : List Tok) : ℕ :=
  (ts.map (fun t => t.value.count '\n')).sum

/-- Concatenated text of one code line. -/
def lineText (l : List Tok) : List Char :=
  (l.map Tok.value).flatten

/-- Concatenated text of a list of code lines. -/
def linesText (ls : List (List Tok)) : List Char :=
  (ls.map lineText).flatten

theorem splitOnNl_length (l : List Char) :
    (splitOnNl l).length = l.count '\n' + 1 := by
  induction l with
  | nil => rfl
  | cons c cs ih =>
    by_cases hc : c = '\n'
    · simp [splitOnNl, hc, List.count_cons, ih]
    · cases hr : splitOnNl cs with
      | nil => rw [hr] at ih; simp at ih
      | cons h t =>
        rw [hr] at ih
        simp [splitOnNl, hc, hr, List.count_cons] at ih ⊢
        omega

theorem splitOnNl_join (l : List Char) :
    (splitOnNl l).flatten = removeNl l := by
  induction l with
  | nil => rfl
  | cons c cs ih =>
    by_cases hc : c = '\n'
    · simp [splitOnNl, hc, removeNl, List.filter_cons, ih]
    · cases hr : splitOnNl cs with
      | nil =>
        have := splitOnNl_length cs
        rw [hr] at this; simp at this
      | cons h t =>
        rw [hr] at ih
        simp [splitOnNl, hc, hr, removeNl, List.filter_cons] at ih ⊢
        exact ih

theorem consumeRest_length (t : Tok) (cur : List Tok) (ps : List (List Char)) :
    (consumeRest t cur ps).1.length = ps.length := by
  induction ps generalizing cur with
  | nil => rfl
  | cons p ps ih => simp [consumeRest, ih]

theorem consumeRest_text (t : Tok) (cur : List Tok) (ps : List (List Char)) :
    (List.map lineText (consumeRest t cur ps).1).flatten
        ++ lineText (consumeRest t cur ps).2
      = lineText cur ++ ps.flatten := by
  induction ps generalizing cur with
  | nil => simp [consumeRest]
  | cons p ps ih =>
    have hnew :
        lineText (if p = [] then ([] : List Tok) else [⟨t.type, p, t.color⟩])
          = p := by
      by_cases hp : p = [] <;> simp [hp, lineText]
    simp only [consumeRest, List.map_cons, List.flatten_cons,
      List.append_assoc, ih, hnew, List.flatten_cons]

theorem consumeParts_text (t : Tok) (cur : List Tok) (ps : List (List Char)) :
    (List.map lineText (consumeParts t cur ps).1).flatten
        ++ lineText (consumeParts t cur ps).2
      = lineText cur ++ ps.flatten := by
  cases ps with
  | nil => simp [consumeParts]
  | cons p ps =>
    have hcur1 :
        lineText (if p = [] then cur else cur ++ [⟨t.type, p, t.color⟩])
          = lineText cur ++ p := by
      by_cases hp : p = [] <;> simp [hp, lineText]
    simp only [consumeParts, consumeRest_text, hcur1, List.flatten_cons,
      List.append_assoc]

theorem splitLoop_length (ts : List Tok) (cur : List Tok) :
    (splitLoop ts cur).length = toksNlCount ts + 1 := by
  induction ts generalizing cur with
  | nil => simp [splitLoop, toksNlCount]
  | cons t ts ih =>
    cases hp : splitOnNl t.value with
    | nil =>
      have := splitOnNl_length t.value
      rw [hp] at this; simp at this
    | cons p ps =>
      have hlen : ps.length = t.value.count '\n' := by
        have := splitOnNl_length t.value
        rw [hp] at this; simp at this; omega
      simp [splitLoop, hp, consumeParts, consumeRest_length, ih,
        toksNlCount, hlen]
      omega

theorem splitLoop_text (ts : List Tok) (cur : List Tok) :
    (List.map lineText (splitLoop ts cur)).flatten
      = lineText cur ++ (ts.map (fun t => removeNl t.value)).flatten := by
  induction ts generalizing cur with
  | nil => simp [splitLoop]
  | cons t ts ih =>
    simp only [splitLoop, List.map_append, List.flatten_append]
    rw [ih, ← List.append_assoc, consumeParts_text, splitOnNl_join,
      List.map_cons, List.flatten_cons, List.append_assoc]

/-- C3 counterexample: the empty token stream has 0 embedded newlines, yet
`splitTokensIntoLines` returns 0 lines, not 0+1 (the code short-circuits
empty input and its own test expects 0 lines). -/
theorem c3_splitTokens_counterexample :
    (splitTokensIntoLines []).length ≠ toksNlCount [] + 1 := by decide

/-- C3 (amended): splitting preserves every non-newline character — the
concatenated text of the output lines equals the input tokens' text with
newlines removed — and a NONEMPTY stream with N embedded newlines yields
exactly N+1 code lines, while the empty stream yields no lines. -/
theorem c3_splitTokens_amended :
    (∀ ts : List Tok, linesText (splitTokensIntoLines ts)
        = (ts.map (fun t => removeNl t.value)).flatten)
    ∧ (∀ ts : List Tok, ts ≠ [] →
        (splitTokensIntoLines ts).length = toksNlCount ts + 1)
    ∧ splitTokensIntoLines [] = [] := by
  refine ⟨?_, ?_, rfl⟩
  · intro ts
    cases ts with
    | nil => rfl
    | cons t ts =>
      show (List.map lineText (splitLoop (t :: ts) [])).flatten = _
      rw [splitLoop_text]
      simp [lineText]
  · intro ts hne
    cases ts with
    | nil => exact absurd rfl hne
    | cons t ts => rw [splitTokensIntoLines, splitLoop_length]

/-- The spec's example stream:
`["package", " ", "main", "\n", "func", " ", "main"]`. -/
def demoToks : List Tok :=
  [⟨0, "package".toList, (0, 0, 0)⟩, ⟨0, " ".toList, (0, 0, 0)⟩,
   ⟨0, "main".toList, (0, 0, 0)⟩, ⟨0, "\n".toList, (0, 0, 0)⟩,
   ⟨0, "func".toList, (0, 0, 0)⟩, ⟨0, " ".toList, (0, 0, 0)⟩,
   ⟨0, "main".toList, (0, 0, 0)⟩]

/-- C3 witness: the spec's 1-newline example yields exactly 2 lines. -/
theorem c3_splitTokens_amended_witness :
    (splitTokensIntoLines demoToks).length = toksNlCount demoToks + 1 :=
  c3_splitTokens_amended.2.1 demoToks (by decide)

/-- A formatted text fragment (`TextFragment` in `render_html.go`). -/
structure TextFragment where
  text : List Char
  bold : Bool
  italic : Bool
  code : Bool
  url : List Char
deriving DecidableEq

/-- Tokenizer for the `parseHTMLFormatting` regex `([^<]+)|(<[^>]+>)`:
maximal non-`<` text runs and `<...>` tags; a `<` that opens no
well-formed tag belongs to no match and is dropped.  First argument
counts characters of an emitted match still to skip. -/
def tokHTMLGo : ℕ → List Char → List (List Char)
  | _, [] => []
  | k+1, _ :: cs => tokHTMLGo k cs
  | 0, c :: cs =>
    if c = '<' then
      match tagInnerLen cs with
      | some n => ('<' :: cs.take (n + 1)) :: tokHTMLGo (n + 1) cs
      | none => tokHTMLGo 0 cs
    else
      let w := (c :: cs).takeWhile (fun d => d != '<')
      w :: tokHTMLGo (w.length - 1) cs

/-- The capture of `(?i)<a\s[^>]*href=["']([^"']+)["'][^>]*>`, taking the
leftmost `href=` occurrence; the Go pattern's greedy `[^>]*` would pick
the last candidate, and the two agree whenever the tag carries a single
href attribute (the only shape this code receives). -/
def hrefOf (tag : List Char) : Option (List Char) :=
  match findSub "href=".toList (lowerStr tag) with
  | none => none
  | some i =>
    match tag.drop (i + 5) with
    | [] => none
    | q :: rest =>
      if q = '"' ∨ q = '\'' then
        let cap := rest.takeWhile (fun c => c != '"' && c != '\'')
        if cap.length ≠ 0 ∧ cap.length < rest.length then some cap else none
      else none

/-- The mutable state of `parseHTMLFormatting`: the four style bits, the
active link target, and the pending text builder. -/
structure FmtState where
  bold : Bool
  italic : Bool
  code : Bool
  url : List Char
  cur : List Char

/-- `flushText`: emit the accumulated text (entity-decoded) with the
current style snapshot, when nonempty. -/
def flushText (st : FmtState) (acc : List TextFragment) :
    List TextFragment × FmtState :=
  if st.cur = [] then (acc, st)
  else
    (acc ++ [⟨decodeHTMLEntities st.cur, st.bold, st.italic, st.code, st.url⟩],
     ⟨st.bold, st.italic, st.code, st.url, []⟩)

/-- The tag dispatch of `parseHTMLFormatting` (string comparison on the
lower-cased tag). -/
def processTag (st : FmtState) (tag : List Char) : FmtState :=
  let lt := lowerStr tag
  if lt = "<strong>".toList ∨ lt = "<b>".toList then
    ⟨true, st.italic, st.code, st.url, st.cur⟩
  else if lt = "</strong>".toList ∨ lt = "</b>".toList then
    ⟨false, st.italic, st.code, st.url, st.cur⟩
  else if lt = "<em>".toList ∨ lt = "<i>".toList then
    ⟨st.bold, true, st.code, st.url, st.cur⟩
  else if lt = "</em>".toList ∨ lt = "</i>".toList then
    ⟨st.bold, false, st.code, st.url, st.cur⟩
  else if lt = "<code>".toList then
    ⟨st.bold, st.italic, true, st.url, st.cur⟩
  else if lt = "</code>".toList then
    ⟨st.bold, st.italic, false, st.url, st.cur⟩
  else if "<a ".toList.isPrefixOf lt then
    match hrefOf tag with
    | some u => ⟨st.bold, st.italic, st.code, u, st.cur⟩
    | none => st
  else if lt = "</a>".toList then
    ⟨st.bold, st.italic, st.code, [], st.cur⟩
  else st

/-- Main fold of `parseHTMLFormatting` over the regex matches. -/
def fmtGo (st : FmtState) (acc : List TextFragment) :
    List (List Char) → List TextFragment
  | [] => (flushText st acc).1
  | tk :: tks =>
    if "<".toList.isPrefixOf tk then
      let fl := flushText st acc
      fmtGo (processTag fl.2 tk) fl.1 tks
    else
      fmtGo ⟨st.bold, st.italic, st.code, st.url, st.cur ++ tk⟩ acc tks

/-- `parseHTMLFormatting` from `render_html.go`. -/
def parseHTMLFormatting (html : List Char) : List TextFragment :=
  fmtGo ⟨false, false, false, [], []⟩ [] (tokHTMLGo 0 html)

/-- C7: inline formatting of `"<strong>bold</strong>"` yields exactly one
run, `bold` with only the bold flag set; and
`"Visit <a href=\"https://go.dev\">Go</a> now."` yields exactly the three
runs `"Visit "`, the link run `"Go"` targeting `https://go.dev`, and
`" now."`, in order. -/
theorem c7_parseHTMLFormatting_cases :
    parseHTMLFormatting "<strong>bold</strong>".toList
        = [⟨"bold".toList, true, false, false, []⟩]
    ∧ parseHTMLFormatting "Visit <a href=\"https://go.dev\">Go</a> now.".toList
        = [⟨"Visit ".toList, false, false, false, []⟩,
           ⟨"Go".toList, false, false, false, "https://go.dev".toList⟩,
           ⟨" now.".toList, false, false, false, []⟩] := by
  constructor <;> decide

/-- One alternative of the block-splitting regex of `renderHTMLMixed`: if
`op` occurs at the head of `s`, the match extends to the earliest later
occurrence of `cl` (non-greedy `.*?`); the total match length is
returned. -/
def tryBlockAlt (op cl s : List Char) : Option ℕ :=
  if op.isPrefixOf s then
    (findSub cl (s.drop op.length)).map (fun j => op.length + j + cl.length)
  else none

/-- The five alternatives of
`(?s)(<blockquote>.*?</blockquote>|<pre><code.*?</code></pre>|<p>.*?</p>|<ul>.*?</ul>|<ol>.*?</ol>)`
in the regex's order (blockquote listed first so that it takes priority
over its inner `<p>` tags). -/
def matchBlockAt (s : List Char) : Option ℕ :=
  (tryBlockAlt "<blockquote>".toList "</blockquote>".toList s).orElse fun _ =>
  (tryBlockAlt "<pre><code".toList "</code></pre>".toList s).orElse fun _ =>
  (tryBlockAlt "<p>".toList "</p>".toList s).orElse fun _ =>
  (tryBlockAlt "<ul>".toList "</ul>".toList s).orElse fun _ =>
  tryBlockAlt "<ol>".toList "</ol>".toList s

/-- The `FindAllString` scan of `renderHTMLMixed`: leftmost matches,
scanning resumes after each match.  First argument counts characters of
an emitted match still to skip. -/
def scanBlocksGo : ℕ → List Char → List (List Char)
  | _, [] => []
  | k+1, _ :: cs => scanBlocksGo k cs
  | 0, c :: cs =>
    match matchBlockAt (c :: cs) with
    | some n => (c :: cs).take n :: scanBlocksGo (n - 1) cs
    | none => scanBlocksGo 0 cs

/-- The ordered block matches that `renderHTMLMixed` iterates over. -/
def htmlMixedBlocks (s : List Char) : List (List Char) :=
  scanBlocksGo 0 s

/-- The per-match dispatch of `renderHTMLMixed`. -/
inductive BlockKind where
  | blockquote | codeBlock | para | bullets | skipped
deriving DecidableEq

/-- Classification used by `renderHTMLMixed` on a match (after
`strings.TrimSpace`). -/
def classifyBlock (m : List Char) : BlockKind :=
  let mt := trimSpace m
  if "<blockquote>".toList.isPrefixOf mt then .blockquote
  else if "<pre><code".toList.isPrefixOf mt then .codeBlock
  else if "<p>".toList.isPrefixOf mt then .para
  else if "<ul>".toList.isPrefixOf mt ∨ "<ol>".toList.isPrefixOf mt then .bullets
  else .skipped

/-- `Interleaved s bs`: the blocks `bs` occur in `s` in order over
disjoint segments — `s = g₀ ++ b₁ ++ g₁ ++ b₂ ++ ⋯ ++ gₙ`. -/
def Interleaved : List Char → List (List Char) → Prop
  | _, [] => True
  | s, b :: bs => ∃ pre rest, s = pre ++ b ++ rest ∧ Interleaved rest bs

theorem interleaved_cons (c : Char) (s : List Char) (bs : List (List Char))
    (h : Interleaved s bs) : Interleaved (c :: s) bs := by
  cases bs with
  | nil => trivial
  | cons b bs =>
    obtain ⟨pre, rest, hs, hr⟩ := h
    exact ⟨c :: pre, rest, by simp [hs], hr⟩

theorem tryBlockAlt_length (op cl s : List Char) (n : ℕ)
    (h : tryBlockAlt op cl s = some n) : op.length + cl.length ≤ n := by
  unfold tryBlockAlt at h
  by_cases hp : op.isPrefixOf s
  · rw [if_pos hp] at h
    cases hf : findSub cl (s.drop op.length) with
    | none => rw [hf] at h; simp at h
    | some j => rw [hf] at h; simp at h; omega
  · rw [if_neg hp] at h; simp at h

theorem matchBlockAt_pos (s : List Char) (n : ℕ)
    (h : matchBlockAt s = some n) : 1 ≤ n := by
  unfold matchBlockAt at h
  cases h1 : tryBlockAlt "<blockquote>".toList "</blockquote>".toList s with
  | some m =>
    rw [h1] at h; simp [Option.orElse] at h; subst h
    have := tryBlockAlt_length _ _ _ _ h1; simp at this; omega
  | none =>
  rw [h1] at h; simp only [Option.orElse] at h
  cases h2 : tryBlockAlt "<pre><code".toList "</code></pre>".toList s with
  | some m =>
    rw [h2] at h; simp [Option.orElse] at h; subst h
    have := tryBlockAlt_length _ _ _ _ h2; simp at this; omega
  | none =>
  rw [h2] at h; simp only [Option.orElse] at h
  cases h3 : tryBlockAlt "<p>".toList "</p>".toList s with
  | some m =>
    rw [h3] at h; simp [Option.orElse] at h; subst h
    have := tryBlockAlt_length _ _ _ _ h3; simp at this; omega
  | none =>
  rw [h3] at h; simp only [Option.orElse] at h
  cases h4 : tryBlockAlt "<ul>".toList "</ul>".toList s with
  | some m =>
    rw [h4] at h; simp [Option.orElse] at h; subst h
    have := tryBlockAlt_length _ _ _ _ h4; simp at this; omega
  | none =>
  rw [h4] at h; simp only [Option.orElse] at h
  have := tryBlockAlt_length _ _ _ _ h; simp at this; omega

theorem scanBlocksGo_interleaved (s : List Char) :
    ∀ k, Interleaved (s.drop k) (scanBlocksGo k s) := by
  induction s with
  | nil => intro k; simp [scanBlocksGo, Interleaved]
  | cons c cs ih =>
    intro k
    cases k with
    | succ k => simpa [scanBlocksGo] using ih k
    | zero =>
      cases hm : matchBlockAt (c :: cs) with
      | none =>
        simp only [scanBlocksGo, hm, List.drop_zero]
        exact interleaved_cons c cs (scanBlocksGo 0 cs) (by simpa using ih 0)
      | some n =>
        have hn : 1 ≤ n := matchBlockAt_pos _ _ hm
        obtain ⟨m, rfl⟩ : ∃ m, n = m + 1 := ⟨n - 1, by omega⟩
        simp only [scanBlocksGo, hm, List.drop_zero, Nat.add_sub_cancel]
        refine ⟨[], (c :: cs).drop (m + 1), ?_, ?_⟩
        · simp [List.take_append_drop]
        · simpa [List.drop_succ_cons] using ih m

/-- C6: the mixed HTML renderer emits blocks in the fragment's original
left-to-right order — the emitted matches occupy disjoint, ordered
segments of every fragment — a paragraph appearing first is emitted (and
classified) first, and a `<p>` nested inside a `<blockquote>` is consumed
by the blockquote match, never re-extracted as its own paragraph
block. -/
theorem c6_renderHTMLMixed_order :
    (∀ s : List Char, Interleaved s (htmlMixedBlocks s))
    ∧ htmlMixedBlocks "<p>intro</p><ul><li>one</li></ul>".toList
        = ["<p>intro</p>".toList, "<ul><li>one</li></ul>".toList]
    ∧ (htmlMixedBlocks "<p>intro</p><ul><li>one</li></ul>".toList).map
          classifyBlock
        = [BlockKind.para, BlockKind.bullets]
    ∧ htmlMixedBlocks
          "<blockquote><p>quoted</p></blockquote><p>tail</p>".toList
        = ["<blockquote><p>quoted</p></blockquote>".toList, "<p>tail</p>".toList]
    ∧ ¬ ("<p>quoted</p>".toList ∈
          htmlMixedBlocks
            "<blockquote><p>quoted</p></blockquote><p>tail</p>".toList) := by
  refine ⟨fun s => ?_, by decide, by decide, by decide, by decide⟩
  simpa using scanBlocksGo_interleaved s 0

/-- A chroma lexer token before colorization: token type and text. -/
structure ChromaTok where
  type : Int
  value : List Char
deriving DecidableEq

/-- Oracles for the external collaborators: gofpdf string widths, the
chroma lexer registry together with its generic fallback lexer, the
style/theme color lookup (`getTokenColor` with the configured style), and
the OS/image loader consulted by `renderImageFile`. -/
structure RenderEnv where
  width : List Char → ℚ
  getLexer : List Char → Option (List Char → Except (List Char) (List ChromaTok))
  fallbackLexer : List Char → Except (List Char) (List ChromaTok)
  tokenColor : Int → Int × Int × Int
  imageExists : List Char → Bool
  imageLoadOk : List Char → Bool
  imageDims : List Char → ℚ × ℚ
  resolvePath : List Char → List Char

/-- `highlightCode` from `render_code.go`: look the lexer up by language
id, substitute the generic fallback when none is registered, tokenize,
and colorize each token. -/
def highlightCode (env : RenderEnv) (code lang : List Char) :
    Except (List Char) (List Tok) :=
  match ((env.getLexer lang).getD env.fallbackLexer) code with
  | .error e => .error e
  | .ok toks => .ok (toks.map fun t => ⟨t.type, t.value, env.tokenColor t.type⟩)

/-- Substring after the last `.` of a name (`strings.LastIndex`); empty
when no dot occurs. -/
def extOf (filename : List Char) : List Char :=
  if '.' ∈ filename then (filename.reverse.takeWhile (fun c => c != '.')).reverse
  else []

/-- `detectLanguage` from `render_code.go`: the extension switch with its
default of `go`. -/
def detectLanguage (filename : List Char) : List Char :=
  let ext := extOf filename
  if ext = "go".toList then "go".toList
  else if ext = "py".toList then "python".toList
  else if ext = "js".toList then "javascript".toList
  else if ext = "ts".toList then "typescript".toList
  else if ext = "java".toList then "java".toList
  else if ext = "c".toList then "c".toList
  else if ext = "cpp".toList ∨ ext = "cc".toList ∨ ext = "cxx".toList then
    "cpp".toList
  else if ext = "rs".toList then "rust".toList
  else if ext = "rb".toList then "ruby".toList
  else if ext = "php".toList then "php".toList
  else if ext = "sh".toList ∨ ext = "bash".toList then "bash".toList
  else if ext = "html".toList then "html".toList
  else if ext = "css".toList then "css".toList
  else if ext = "json".toList then "json".toList
  else if ext = "xml".toList then "xml".toList
  else if ext = "yaml".toList ∨ ext = "yml".toList then "yaml".toList
  else if ext = "sql".toList then "sql".toList
  else "go".toList

/-- The extensions with a dedicated branch in `detectLanguage`. -/
def recognizedExts : List (List Char) :=
  ["go".toList, "py".toList, "js".toList, "ts".toList, "java".toList,
   "c".toList, "cpp".toList, "cc".toList, "cxx".toList, "rs".toList,
   "rb".toList, "php".toList, "sh".toList, "bash".toList, "html".toList,
   "css".toList, "json".toList, "xml".toList, "yaml".toList, "yml".toList,
   "sql".toList]

/-- A code-truncation diagnostic: slide number, slide title, the maximum
and the actual line count (the content of the `Warning: code block
truncated` message). -/
structure TruncDiag where
  slide : ℕ
  title : List Char
  maxLines : ℕ
  actual : ℕ
deriving DecidableEq

/-- The drawing loop shared by the code renderers: for each line, when the
index reached 20 the ellipsis replaces the rest (with one diagnostic
unless quiet) and the loop breaks; returns (lines drawn, diagnostics,
ellipsis drawn). -/
def codeLinesLoop {α : Type} (quiet : Bool) (slide : ℕ) (title : List Char)
    (total : ℕ) : ℕ → List α → ℕ × List TruncDiag × Bool
  | _, [] => (0, [], false)
  | i, _ :: ls =>
    if 20 ≤ i then
      (0, (if quiet then [] else [⟨slide, title, 20, total⟩]), true)
    else
      let r := codeLinesLoop quiet slide title total (i + 1) ls
      (r.1 + 1, r.2.1, r.2.2)

/-- Observable outcome of rendering one code block: lines drawn, ellipsis,
diagnostics, the computed (capped) code height, the height of the filled
background rectangle, and the returned cursor. -/
structure CodeOut where
  drawn : ℕ
  ellipsis : Bool
  diags : List TruncDiag
  codeHeight : ℚ
  bgHeight : ℚ
  yEnd : ℚ
deriving DecidableEq

/-- `renderHighlightedCode` from `render_code.go`. -/
def renderHighlightedCode (quiet : Bool) (slide : ℕ) (title : List Char)
    (tokens : List Tok) (y : ℚ) : CodeOut :=
  let lines := splitTokensIntoLines tokens
  let codeHeight : ℚ :=
    if (6 * lines.length : ℚ) > 120 then 120 else 6 * lines.length
  let r := codeLinesLoop quiet slide title lines.length 0 lines
  ⟨r.1, r.2.2, r.2.1, codeHeight, codeHeight + 5, y + codeHeight + 12⟩

/-- `renderCodePlain` from `render_code.go` (fallback without colors). -/
def renderCodePlain (quiet : Bool) (slide : ℕ) (title : List Char)
    (code : List Char) (y : ℚ) : CodeOut :=
  let lines := splitOnNl code
  let codeHeight : ℚ :=
    if (6 * lines.length : ℚ) > 120 then 120 else 6 * lines.length
  let r := codeLinesLoop quiet slide title lines.length 0 lines
  ⟨r.1, r.2.2, r.2.1, codeHeight, codeHeight + 5, y + codeHeight + 12⟩

/-- The language id `renderCode` passes to the highlighter: detected from
the filename when present, the default `go` otherwise. -/
def renderCodeLanguage (fileName : List Char) : List Char :=
  if fileName ≠ [] then detectLanguage fileName else "go".toList

/-- `renderCode` from `render_code.go` (vertical-cursor result): a
highlighting error falls back to the plain monospace path. -/
def renderCode (env : RenderEnv) (quiet : Bool) (slide : ℕ) (title : List Char)
    (fileName raw : List Char) (y : ℚ) : ℚ :=
  match highlightCode env raw (renderCodeLanguage fileName) with
  | .error _ => (renderCodePlain quiet slide title raw y).yEnd
  | .ok tokens => (renderHighlightedCode quiet slide title tokens y).yEnd

/-- Attempt of the `renderMarkdownCodeBlock` regex — triple backtick,
`(\w*)` language tag, `\s*\n` (greedy whitespace backtracking to leave a
final newline), `(.*?)` body, closing triple backtick — at the head of
`s`. -/
def matchFenceAt (s : List Char) : Option (List Char × List Char) :=
  if "```".toList.isPrefixOf s then
    let rest := s.drop 3
    let lang := rest.takeWhile isWordChar
    let rest1 := rest.drop lang.length
    let ws := rest1.takeWhile isSpaceChar
    match lastNlPos ws with
    | none => none
    | some j =>
      let body := rest1.drop (j + 1)
      match findSub "```".toList body with
      | none => none
      | some k => some (lang, body.take k)
  else none

/-- Leftmost match of the fence regex (`FindStringSubmatch`). -/
def mdFenceMatch : List Char → Option (List Char × List Char)
  | [] => none
  | c :: cs =>
    match matchFenceAt (c :: cs) with
    | some r => some r
    | none => mdFenceMatch cs

/-- The language id `renderMarkdownCodeBlock` passes to the highlighter
(`some` only when a fence matches): an empty tag defaults to `go`. -/
def mdBlockLanguage (content : List Char) : Option (List Char) :=
  (mdFenceMatch content).map fun r => if r.1 = [] then "go".toList else r.1

/-- `renderMarkdownCodeBlock` from `render_code.go` (vertical-cursor
result). -/
def renderMarkdownCodeBlock (env : RenderEnv) (quiet : Bool) (slide : ℕ)
    (title : List Char) (content : List Char) (y : ℚ) : ℚ :=
  match mdFenceMatch content with
  | none => y + 15
  | some r =>
    let language := if r.1 = [] then "go".toList else r.1
    let codeText := trimSpace r.2
    match highlightCode env codeText language with
    | .error _ => (renderCodePlain quiet slide title codeText y).yEnd
    | .ok tokens => (renderHighlightedCode quiet slide title tokens y).yEnd

/-- `renderText` from the converter (vertical-cursor result): text holding
a markdown fence routes to `renderMarkdownCodeBlock`, ordinary text is
placed as one MultiCell and advances the cursor by 15. -/
def renderText (env : RenderEnv) (quiet : Bool) (slide : ℕ) (title : List Char)
    (textLines : List (List Char)) (y : ℚ) : ℚ :=
  let content := List.intercalate ['\n'] textLines
  if containsSeq "```".toList content then
    renderMarkdownCodeBlock env quiet slide title content y
  else y + 15

/-- `renderList` from the converter: 12 per bullet, then 6. -/
def renderList (items : List (List Char)) (y : ℚ) : ℚ :=
  (items.foldl (fun y _ => y + 12) y) + 6

/-- `renderLink` from the converter: one link line, cursor advances 15. -/
def renderLink (_label _url : List Char) (y : ℚ) : ℚ :=
  y + 15

/-- The word-wrap cursor of `renderFormattedText`. -/
structure Cursor where
  x : ℚ
  y : ℚ
deriving DecidableEq

/-- Word loop of `renderFormattedText`: greedy wrap — the word width is
measured with one trailing space, and a word that would exceed the bound
while the cursor is past line start first moves to a fresh line. -/
def placeWords (env : RenderEnv) (x maxWidth lineHeight : ℚ) :
    Cursor → List (List Char) → Cursor
  | cur, [] => cur
  | cur, w :: ws =>
    let ww := env.width (w ++ [' '])
    let cur1 : Cursor :=
      if cur.x + ww > x + maxWidth ∧ cur.x > x then ⟨x, cur.y + lineHeight⟩
      else cur
    placeWords env x maxWidth lineHeight ⟨cur1.x + ww, cur1.y⟩ ws

/-- `renderFormattedText` from `render_html.go` (vertical-cursor result):
place every fragment's words, return the final line's y plus one line
height. -/
def renderFormattedText (env : RenderEnv) (frags : List TextFragment)
    (x y maxWidth lineHeight : ℚ) : ℚ :=
  (frags.foldl
      (fun cur f => placeWords env x maxWidth lineHeight cur (fieldsOf f.text))
      ⟨x, y⟩).y + lineHeight

/-- `FindAllStringSubmatch` of `(?s)op(.*?)cl`: every leftmost,
non-overlapping inner capture.  First argument counts characters of a
consumed match still to skip. -/
def extractGo (op cl : List Char) : ℕ → List Char → List (List Char)
  | _, [] => []
  | k+1, _ :: cs => extractGo op cl k cs
  | 0, c :: cs =>
    if op.isPrefixOf (c :: cs) then
      match findSub cl ((c :: cs).drop op.length) with
      | some j =>
        ((c :: cs).drop op.length).take j ::
          extractGo op cl (op.length + j + cl.length - 1) cs
      | none => extractGo op cl 0 cs
    else extractGo op cl 0 cs

def extractInners (op cl s : List Char) : List (List Char) :=
  extractGo op cl 0 s

/-- The `(?i)^<img\s` test of `renderHTMLParagraphs`. -/
def isImgTag (p : List Char) : Bool :=
  let lp := lowerStr p
  "<img".toList.isPrefixOf lp &&
    (match lp.drop 4 with
     | c :: _ => isSpaceChar c
     | [] => false)

/-- The `(?i)src=["']([^"']+)["']` capture of `renderHTMLImage` (leftmost
occurrence). -/
def imgSrc (imgHTML : List Char) : Option (List Char) :=
  match findSub "src=".toList (lowerStr imgHTML) with
  | none => none
  | some i =>
    match imgHTML.drop (i + 4) with
    | [] => none
    | q :: rest =>
      if q = '"' ∨ q = '\'' then
        let cap := rest.takeWhile (fun c => c != '"' && c != '\'')
        if cap.length ≠ 0 ∧ cap.length < rest.length then some cap else none
      else none

/-- Final path element (after the last `/`), for `filepath.Ext`. -/
def baseName (path : List Char) : List Char :=
  if '/' ∈ path then (path.reverse.takeWhile (fun c => c != '/')).reverse
  else path

/-- Upper-cased extension with `JPG` mapped to `JPEG` (the
`filepath.Ext` / `TrimPrefix` / `ToUpper` steps of `renderImageFile`). -/
def imageExt (path : List Char) : List Char :=
  let e := (extOf (baseName path)).map Char.toUpper
  if e = "JPG".toList then "JPEG".toList else e

/-- `renderImageFile` (image-rendering source file): missing file,
unsupported format and load failure return the cursor unchanged; with
less than 5 units of remaining height nothing is placed; otherwise the
image is scaled by the smaller of the width and height ratios (or
degenerates to width 257, height 0 when it has no positive intrinsic
dimensions) and the cursor advances past it by 5. -/
def renderImageFile (env : RenderEnv) (path : List Char) (y : ℚ) : ℚ :=
  if env.imageExists path = false then y
  else
    let ext := imageExt path
    if ¬ (ext = "JPEG".toList ∨ ext = "PNG".toList ∨ ext = "GIF".toList) then y
    else if env.imageLoadOk path = false then y
    else
      let maxH := 190 - y
      if maxH ≤ 5 then y
      else
        let dims := env.imageDims path
        let wh : ℚ × ℚ :=
          if dims.1 > 0 ∧ dims.2 > 0 then
            let scale := min (257 / dims.1) (maxH / dims.2)
            (dims.1 * scale, dims.2 * scale)
          else (257, 0)
        y + wh.2 + 5

/-- `renderHTMLImage`: extract the `src` attribute, resolve the path
relative to the slide directory, place the image file. -/
def renderHTMLImage (env : RenderEnv) (imgHTML : List Char) (y : ℚ) : ℚ :=
  match imgSrc imgHTML with
  | none => y
  | some src => renderImageFile env (env.resolvePath src) y

/-- Tag-removal scan of `stripHTMLTags` (`<[^>]+>` replaced by nothing);
first argument counts characters of a removed tag still to skip. -/
def stripTagsGo : ℕ → List Char → List Char
  | _, [] => []
  | k+1, _ :: cs => stripTagsGo k cs
  | 0, c :: cs =>
    if c = '<' then
      match tagInnerLen cs with
      | some n => stripTagsGo (n + 1) cs
      | none => c :: stripTagsGo 0 cs
    else c :: stripTagsGo 0 cs

/-- `stripHTMLTags` from `render_html.go`. -/
def stripHTMLTags (s : List Char) : List Char :=
  decodeHTMLEntities (stripTagsGo 0 s)

/-- `renderHTMLPlainText` (vertical-cursor result). -/
def renderHTMLPlainText (html : List Char) (y : ℚ) : ℚ :=
  if trimSpace (stripHTMLTags html) = [] then y else y + 12

/-- `renderHTMLParagraphs` (vertical-cursor result): each nonempty
paragraph is either an image paragraph or formatted text followed by 5
units of spacing. -/
def renderHTMLParagraphs (env : RenderEnv) (html : List Char) (y : ℚ) : ℚ :=
  (extractInners "<p>".toList "</p>".toList html).foldl
    (fun y m =>
      let para := trimSpace m
      if para = [] then y
      else if isImgTag para then renderHTMLImage env para y
      else renderFormattedText env (parseHTMLFormatting para) 20 y 257 11 + 5)
    y

/-- `renderHTMLList` (vertical-cursor result). -/
def renderHTMLList (env : RenderEnv) (html : List Char) (y : ℚ) : ℚ :=
  ((extractInners "<li>".toList "</li>".toList html).foldl
    (fun y m =>
      renderFormattedText env (parseHTMLFormatting (trimSpace m)) 30 y 247 9 + 3)
    y) + 6

/-- Attempt of `(?s)<pre><code[^>]*>(.*?)</code></pre>` at the head of
`s`: skip the attributes up to the tag's `>`, capture the shortest body
closed by `</code></pre>`. -/
def matchHTMLCodeAt (s : List Char) : Option (List Char) :=
  if "<pre><code".toList.isPrefixOf s then
    let rest := s.drop 10
    let attrs := rest.takeWhile (fun c => c != '>')
    if attrs.length < rest.length then
      let body := rest.drop (attrs.length + 1)
      (findSub "</code></pre>".toList body).map fun k => body.take k
    else none
  else none

/-- Leftmost inner capture of the HTML code-block regex. -/
def htmlCodeInner : List Char → Option (List Char)
  | [] => none
  | c :: cs =>
    match matchHTMLCodeAt (c :: cs) with
    | some r => some r
    | none => htmlCodeInner cs

/-- Attempt of `<code class="language-(\w+)">` at the head of `s`. -/
def matchCodeLangAt (s : List Char) : Option (List Char) :=
  if "<code class=\"language-".toList.isPrefixOf s then
    let rest := s.drop 22
    let w := rest.takeWhile isWordChar
    if w.length ≠ 0 ∧ "\">".toList.isPrefixOf (rest.drop w.length) then some w
    else none
  else none

/-- Leftmost capture of the language-class regex. -/
def htmlCodeLang : List Char → Option (List Char)
  | [] => none
  | c :: cs =>
    match matchCodeLangAt (c :: cs) with
    | some r => some r
    | none => htmlCodeLang cs

/-- `renderHTMLCode` from `render_html.go` (vertical-cursor result). -/
def renderHTMLCode (env : RenderEnv) (quiet : Bool) (slide : ℕ)
    (title : List Char) (html : List Char) (y : ℚ) : ℚ :=
  match htmlCodeInner html with
  | none => y
  | some inner =>
    let codeText := decodeHTMLEntities (trimSpace inner)
    let language := match htmlCodeLang html with
                    | some l => l
                    | none => "go".toList
    match highlightCode env codeText language with
    | .error _ => (renderCodePlain quiet slide title codeText y).yEnd
    | .ok tokens => (renderHighlightedCode quiet slide title tokens y).yEnd

/-- Wrapped-line estimate of one blockquote paragraph (the
`renderHTMLBlockquote` width loop, text width 249). -/
def bqLinesGo (env : RenderEnv) : ℚ → ℕ → List (List Char) → ℕ
  | _, n, [] => n
  | lw, n, w :: ws =>
    let ww := env.width (w ++ [' '])
    if lw + ww > 249 ∧ lw > 0 then bqLinesGo env ww (n + 1) ws
    else bqLinesGo env (lw + ww) n ws

def bqLines (env : RenderEnv) (para : List Char) : ℕ :=
  bqLinesGo env 0 1 (fieldsOf (stripHTMLTags para))

/-- Total paragraph height of a blockquote: `lines * 11` per paragraph
plus 3 between consecutive paragraphs. -/
def bqParasHeight (env : RenderEnv) : List (List Char) → ℚ
  | [] => 0
  | [p] => 11 * bqLines env p
  | p :: ps => 11 * bqLines env p + 3 + bqParasHeight env ps

/-- The paragraph list of `renderHTMLBlockquote`: the trimmed nonempty
`<p>` captures, or — when no `<p>` occurs — the trimmed tag-stripped
inner content as a single paragraph. -/
def bqParagraphsOf (inner : List Char) : List (List Char) :=
  if extractInners "<p>".toList "</p>".toList inner = [] then
    (if trimSpace (stripHTMLTags inner) = [] then []
     else [trimSpace (stripHTMLTags inner)])
  else
    ((extractInners "<p>".toList "</p>".toList inner).map trimSpace).filter
      (fun t => t != [])

/-- `renderHTMLBlockquote` from `render_html.go` (vertical-cursor result;
the two 4-unit vertical paddings contribute the 8). -/
def renderHTMLBlockquote (env : RenderEnv) (html : List Char) (y : ℚ) : ℚ :=
  match extractInners "<blockquote>".toList "</blockquote>".toList html with
  | [] => y
  | innerRaw :: _ =>
    if bqParagraphsOf (trimSpace innerRaw) = [] then y
    else y + (8 + bqParasHeight env (bqParagraphsOf (trimSpace innerRaw))) + 5

/-- `renderHTMLMixed` from `render_html.go`: iterate the ordered block
matches and dispatch on each match's leading tag. -/
def renderHTMLMixed (env : RenderEnv) (quiet : Bool) (slide : ℕ)
    (title : List Char) (html : List Char) (y : ℚ) : ℚ :=
  (htmlMixedBlocks html).foldl
    (fun y m0 =>
      let m := trimSpace m0
      if m = [] then y
      else if "<blockquote>".toList.isPrefixOf m then
        renderHTMLBlockquote env m y
      else if "<pre><code".toList.isPrefixOf m then
        renderHTMLCode env quiet slide title m y
      else if "<p>".toList.isPrefixOf m then
        renderHTMLParagraphs env m y
      else if "<ul>".toList.isPrefixOf m ∨ "<ol>".toList.isPrefixOf m then
        renderHTMLList env m y
      else y)
    y

/-- `renderHTML` from `render_html.go`: count the distinct block types,
route mixed content to `renderHTMLMixed`, single types to their
renderer, a standalone `<img>` to the image path, anything else to the
plain-text fallback. -/
def renderHTML (env : RenderEnv) (quiet : Bool) (slide : ℕ) (title : List Char)
    (html : List Char) (y : ℚ) : ℚ :=
  let hasCode := containsSeq "<pre><code".toList html
  let hasLists := containsSeq "<ul>".toList html || containsSeq "<ol>".toList html
  let hasParagraphs := containsSeq "<p>".toList html
  let hasBlockquote := containsSeq "<blockquote>".toList html
  let typeCount : ℕ := (if hasCode then 1 else 0) + (if hasLists then 1 else 0) +
    (if hasParagraphs then 1 else 0) + (if hasBlockquote then 1 else 0)
  if typeCount > 1 then renderHTMLMixed env quiet slide title html y
  else if hasBlockquote then renderHTMLBlockquote env html y
  else if hasCode then renderHTMLCode env quiet slide title html y
  else if hasLists then renderHTMLList env html y
  else if hasParagraphs then renderHTMLParagraphs env html y
  else if containsSeq "<img ".toList html then renderHTMLImage env html y
  else renderHTMLPlainText html y

/-- A slide content element (the `present.Elem` variants the converter
dispatches on); `other` stands for any unsupported element kind. -/
inductive Elem where
  | text (lines : List (List Char))
  | list (bullet : List (List Char))
  | code (fileName raw : List Char)
  | html (content : List Char)
  | link (label url : List Char)
  | other
deriving DecidableEq

/-- `renderElement` from the converter: dispatch by element kind;
unsupported kinds are skipped with the cursor unchanged. -/
def renderElement (env : RenderEnv) (quiet : Bool) (slide : ℕ)
    (title : List Char) : Elem → ℚ → ℚ
  | .text ls, y => renderText env quiet slide title ls y
  | .list bs, y => renderList bs y
  | .code fn raw, y => renderCode env quiet slide title fn raw y
  | .html h, y => renderHTML env quiet slide title h y
  | .link l u, y => renderLink l u y
  | .other, y => y

/-- An overflow diagnostic: slide number, title and the cursor position
(the content of the `does not fit` warning). -/
structure OverflowDiag where
  slide : ℕ
  title : List Char
  y : ℚ
deriving DecidableEq

/-- Observable outcome of one slide's content loop. -/
structure SlideOut where
  rendered : List Elem
  yEnd : ℚ
  diags : List OverflowDiag
deriving DecidableEq

/-- The content loop of `renderSlide`: render the element, then break —
with one warning unless quiet — as soon as the cursor passed 190. -/
def renderSlideLoop (env : RenderEnv) (quiet : Bool) (slide : ℕ)
    (title : List Char) (y : ℚ) : List Elem → SlideOut
  | [] => ⟨[], y, []⟩
  | e :: es =>
    let y2 := renderElement env quiet slide title e y
    if y2 > 190 then ⟨[e], y2, if quiet then [] else [⟨slide, title, y2⟩]⟩
    else
      let r := renderSlideLoop env quiet slide title y2 es
      ⟨e :: r.rendered, r.yEnd, r.diags⟩

/-- `renderSlide` (content part): the content cursor starts at 45. -/
def renderSlide (env : RenderEnv) (quiet : Bool) (slide : ℕ)
    (title : List Char) (elems : List Elem) : SlideOut :=
  renderSlideLoop env quiet slide title 45 elems

/-- Cursor position after rendering a list of elements in sequence
(no overflow cut-off). -/
def yAfter (env : RenderEnv) (quiet : Bool) (slide : ℕ) (title : List Char) :
    ℚ → List Elem → ℚ
  | y, [] => y
  | y, e :: es =>
    yAfter env quiet slide title (renderElement env quiet slide title e y) es

/-- Index of the first element whose rendering pushes the cursor past
190. -/
def firstOverflow (env : RenderEnv) (quiet : Bool) (slide : ℕ)
    (title : List Char) : ℚ → List Elem → Option ℕ
  | _, [] => none
  | y, e :: es =>
    let y2 := renderElement env quiet slide title e y
    if y2 > 190 then some 0
    else (firstOverflow env quiet slide title y2 es).map (· + 1)

theorem codeLinesLoop_drawn {α : Type} (quiet : Bool) (slide : ℕ)
    (title : List Char) (total : ℕ) :
    ∀ (ls : List α) (i : ℕ),
      (codeLinesLoop quiet slide title total i ls).1 = min ls.length (20 - i) := by
  intro ls
  induction ls with
  | nil => intro i; simp [codeLinesLoop]
  | cons a ls ih =>
    intro i
    by_cases hi : 20 ≤ i
    · simp only [codeLinesLoop, if_pos hi, List.length_cons]
      omega
    · simp only [codeLinesLoop, if_neg hi, List.length_cons, ih (i + 1)]
      omega

theorem codeLinesLoop_no_trunc {α : Type} (quiet : Bool) (slide : ℕ)
    (title : List Char) (total : ℕ) :
    ∀ (ls : List α) (i : ℕ), i + ls.length ≤ 20 →
      codeLinesLoop quiet slide title total i ls = (ls.length, [], false) := by
  intro ls
  induction ls with
  | nil => intro i _; rfl
  | cons a ls ih =>
    intro i hle
    have hi : ¬ 20 ≤ i := by simp at hle ⊢; omega
    have := ih (i + 1) (by simp at hle ⊢; omega)
    simp [codeLinesLoop, hi, this]

theorem codeLinesLoop_trunc {α : Type} (quiet : Bool) (slide : ℕ)
    (title : List Char) (total : ℕ) :
    ∀ (ls : List α) (i : ℕ), i ≤ 20 → 20 < i + ls.length →
      (codeLinesLoop quiet slide title total i ls).2.1
          = (if quiet then [] else [⟨slide, title, 20, total⟩])
      ∧ (codeLinesLoop quiet slide title total i ls).2.2 = true := by
  intro ls
  induction ls with
  | nil => intro i h1 h2; simp at h2; omega
  | cons a ls ih =>
    intro i h1 h2
    by_cases hi : 20 ≤ i
    · simp [codeLinesLoop, hi]
    · have := ih (i + 1) (by omega) (by simp at h2 ⊢; omega)
      simp [codeLinesLoop, hi, this.1, this.2]

theorem cap_le_120 (q : ℚ) : (if q > 120 then (120 : ℚ) else q) ≤ 120 := by
  split
  · exact le_refl _
  · exact not_lt.mp (by assumption)

theorem cap_nonneg_120 (q : ℚ) (hq : 0 ≤ q) :
    0 ≤ (if q > 120 then (120 : ℚ) else q) := by
  split
  · norm_num
  · exact hq

/-- C5 counterexample: with 21 code lines the computed code height is
capped at 120, but the background rectangle is drawn with height
`codeHeight + 5 = 125`, exceeding the claimed fixed maximum of 120. -/
theorem c5_code_bg_counterexample :
    (renderHighlightedCode false 2 []
        [⟨0, List.replicate 20 '\n', (0, 0, 0)⟩] 45).bgHeight = 125
    ∧ ¬ (renderHighlightedCode false 2 []
        [⟨0, List.replicate 20 '\n', (0, 0, 0)⟩] 45).bgHeight ≤ 120 := by
  have hL : (splitTokensIntoLines
      [⟨0, List.replicate 20 '\n', (0, 0, 0)⟩]).length = 21 := by decide
  have hbg : (renderHighlightedCode false 2 []
      [⟨0, List.replicate 20 '\n', (0, 0, 0)⟩] 45).bgHeight
      = (if (6 * ((21 : ℕ) : ℚ)) > 120 then (120 : ℚ)
         else 6 * ((21 : ℕ) : ℚ)) + 5 := by
    show (if (6 * ((splitTokensIntoLines
          [⟨0, List.replicate 20 '\n', (0, 0, 0)⟩]).length : ℚ)) > 120
        then (120 : ℚ)
        else 6 * ((splitTokensIntoLines
          [⟨0, List.replicate 20 '\n', (0, 0, 0)⟩]).length : ℚ)) + 5 = _
    rw [hL]
  rw [hbg]
  norm_num

/-- C5 (amended): rendering a highlighted code block draws at most 20 code
lines (all of them when they number at most 20, without diagnostic); with
more than 20 lines the ellipsis is drawn in place of the remaining
content and exactly one diagnostic carrying the slide, its title, the
maximum (20) and the actual line count is emitted; the computed code
height is capped at 120, so the drawn background (code height + 5) never
exceeds 125; `renderCodePlain` draws at most 20 lines as well. -/
theorem c5_code_truncation_amended :
    ∀ (slide : ℕ) (title : List Char) (toks : List Tok) (y : ℚ),
      (renderHighlightedCode false slide title toks y).drawn ≤ 20
      ∧ (20 < (splitTokensIntoLines toks).length →
          (renderHighlightedCode false slide title toks y).ellipsis = true
          ∧ (renderHighlightedCode false slide title toks y).diags
              = [⟨slide, title, 20, (splitTokensIntoLines toks).length⟩])
      ∧ ((splitTokensIntoLines toks).length ≤ 20 →
          (renderHighlightedCode false slide title toks y).drawn
              = (splitTokensIntoLines toks).length
          ∧ (renderHighlightedCode false slide title toks y).diags = [])
      ∧ (renderHighlightedCode false slide title toks y).codeHeight ≤ 120
      ∧ (renderHighlightedCode false slide title toks y).bgHeight
          = (renderHighlightedCode false slide title toks y).codeHeight + 5
      ∧ (∀ code : List Char,
          (renderCodePlain false slide title code y).drawn ≤ 20) := by
  intro slide title toks y
  refine ⟨?_, ?_, ?_, ?_, rfl, ?_⟩
  · show (codeLinesLoop false slide title _ 0 _).1 ≤ 20
    rw [codeLinesLoop_drawn]
    omega
  · intro h
    have := codeLinesLoop_trunc false slide title
      (splitTokensIntoLines toks).length (splitTokensIntoLines toks) 0
      (by omega) (by omega)
    exact ⟨this.2, by simpa using this.1⟩
  · intro h
    have := codeLinesLoop_no_trunc false slide title
      (splitTokensIntoLines toks).length (splitTokensIntoLines toks) 0
      (by omega)
    constructor
    · show (codeLinesLoop false slide title _ 0 _).1 = _
      rw [this]
    · show (codeLinesLoop false slide title _ 0 _).2.1 = _
      rw [this]
  · exact cap_le_120 _
  · intro code
    show (codeLinesLoop false slide title _ 0 _).1 ≤ 20
    rw [codeLinesLoop_drawn]
    omega

/-- C5 witness: a block of 21 lines draws the ellipsis and exactly the one
diagnostic naming slide 2, the 20-line maximum and the 21 actual
lines. -/
theorem c5_code_truncation_amended_witness :
    (renderHighlightedCode false 2 []
        [⟨0, List.replicate 20 '\n', (0, 0, 0)⟩] 45).ellipsis = true
    ∧ (renderHighlightedCode false 2 []
        [⟨0, List.replicate 20 '\n', (0, 0, 0)⟩] 45).diags
        = [⟨2, [], 20, 21⟩] := by
  have h := (c5_code_truncation_amended 2 []
    [⟨0, List.replicate 20 '\n', (0, 0, 0)⟩] 45).2.1 (by decide)
  exact ⟨h.1, by rw [h.2]; decide⟩

/-- C8: when no lexer is registered for a language id, `highlightCode`
substitutes the generic fallback lexer (an error can only come from the
tokenizer itself, and a successful fallback tokenization yields a
successful result); and whenever highlighting returns an error,
`renderCode` recovers by rendering through the plain monospace path,
never propagating the error. -/
theorem c8_highlight_fallback :
    (∀ (env : RenderEnv) (lang code : List Char), env.getLexer lang = none →
        highlightCode env code lang
          = match env.fallbackLexer code with
            | .error e => .error e
            | .ok toks =>
                .ok (toks.map fun t => ⟨t.type, t.value, env.tokenColor t.type⟩))
    ∧ (∀ (env : RenderEnv) (lang code : List Char) (ts : List ChromaTok),
        env.getLexer lang = none → env.fallbackLexer code = .ok ts →
        highlightCode env code lang
          = .ok (ts.map fun t => ⟨t.type, t.value, env.tokenColor t.type⟩))
    ∧ (∀ (env : RenderEnv) (quiet : Bool) (slide : ℕ) (title : List Char)
        (fn raw : List Char) (y : ℚ) (e : List Char),
        highlightCode env raw (renderCodeLanguage fn) = .error e →
        renderCode env quiet slide title fn raw y
          = (renderCodePlain quiet slide title raw y).yEnd) := by
  refine ⟨?_, ?_, ?_⟩
  · intro env lang code h
    cases hfb : env.fallbackLexer code <;> simp [highlightCode, h, hfb]
  · intro env lang code ts h hok
    simp [highlightCode, h, hok]
  · intro env quiet slide title fn raw y e h
    simp only [renderCode, h]

/-- A concrete oracle environment: unit widths, no registered lexers, a
fallback lexer that succeeds with no tokens, no images. -/
def env0 : RenderEnv :=
  ⟨fun _ => 1, fun _ => none, fun _ => .ok [], fun _ => (0, 0, 0),
   fun _ => false, fun _ => false, fun _ => (0, 0), fun s => s⟩

/-- A concrete oracle environment whose tokenizer always fails. -/
def envErr : RenderEnv :=
  ⟨fun _ => 1, fun _ => none, fun _ => .error "fail".toList,
   fun _ => (0, 0, 0), fun _ => false, fun _ => false, fun _ => (0, 0),
   fun s => s⟩

/-- C8 witness: an unregistered language id is highlighted through the
fallback without error, and a failing tokenizer sends `renderCode`
through the plain path. -/
theorem c8_highlight_fallback_witness :
    highlightCode env0 "x".toList "nosuchlang".toList = .ok []
    ∧ renderCode envErr false 2 [] [] "x".toList 45
        = (renderCodePlain false 2 [] "x".toList 45).yEnd :=
  ⟨c8_highlight_fallback.2.1 env0 "nosuchlang".toList "x".toList [] rfl rfl,
   c8_highlight_fallback.2.2 envErr false 2 [] [] "x".toList 45
     "fail".toList rfl⟩

/-- C10: the language id passed to the highlighter is total with default
`go` — a filename with an extension outside the recognized table, or
with no dot at all, maps to `go`; a markdown fence with an empty language
tag passes `go` (shown in general and on a concrete untagged fence); and
a code element with no filename passes `go`. -/
theorem c10_language_defaults_go :
    (∀ fn : List Char, ¬ extOf fn ∈ recognizedExts →
        detectLanguage fn = "go".toList)
    ∧ (∀ fn : List Char, ¬ '.' ∈ fn → detectLanguage fn = "go".toList)
    ∧ (∀ (content lang code : List Char),
        mdFenceMatch content = some (lang, code) → lang = [] →
        mdBlockLanguage content = some "go".toList)
    ∧ renderCodeLanguage [] = "go".toList
    ∧ mdBlockLanguage
        ("```".toList ++ '\n' :: "x = 1".toList ++ '\n' :: "```".toList)
        = some "go".toList := by
  have main : ∀ fn : List Char, ¬ extOf fn ∈ recognizedExts →
      detectLanguage fn = "go".toList := by
    intro fn h
    simp only [recognizedExts, List.mem_cons, List.mem_singleton, not_or] at h
    obtain ⟨h1, h2, h3, h4, h5, h6, h7, h8, h9, h10, h11, h12, h13, h14,
      h15, h16, h17, h18, h19, h20, h21⟩ := h
    simp only [detectLanguage, h1, h2, h3, h4, h5, h6, h7, h8, h9, h10, h11,
      h12, h13, h14, h15, h16, h17, h18, h19, h20, h21, if_false, or_self,
      if_true]
  refine ⟨main, ?_, ?_, by decide, by decide⟩
  · intro fn h
    apply main
    have : extOf fn = [] := by simp [extOf, h]
    rw [this]
    decide
  · intro content lang code hm hl
    unfold mdBlockLanguage
    rw [hm, hl]
    rfl

/-- C10 witness: an extension-free filename, an unrecognized extension and
an untagged fence all route to `go`. -/
theorem c10_language_defaults_go_witness :
    detectLanguage "README".toList = "go".toList
    ∧ detectLanguage "weird.xyz".toList = "go".toList
    ∧ mdBlockLanguage
        ("```".toList ++ '\n' :: "x = 1".toList ++ '\n' :: "```".toList)
        = some "go".toList :=
  ⟨c10_language_defaults_go.2.1 "README".toList (by decide),
   c10_language_defaults_go.1 "weird.xyz".toList (by decide),
   c10_language_defaults_go.2.2.1
     ("```".toList ++ '\n' :: "x = 1".toList ++ '\n' :: "```".toList)
     [] ("x = 1".toList ++ ['\n']) (by decide) rfl⟩

theorem foldl_y_le {α : Type} (f : ℚ → α → ℚ) (h : ∀ y a, y ≤ f y a) :
    ∀ (l : List α) (y : ℚ), y ≤ List.foldl f y l := by
  intro l
  induction l with
  | nil => intro y; exact le_refl y
  | cons a l ih => intro y; exact le_trans (h y a) (ih (f y a))

theorem foldl_cursor_y_le {α : Type} (g : Cursor → α → Cursor)
    (h : ∀ c a, c.y ≤ (g c a).y) :
    ∀ (l : List α) (c : Cursor), c.y ≤ (List.foldl g c l).y := by
  intro l
  induction l with
  | nil => intro c; exact le_refl _
  | cons a l ih => intro c; exact le_trans (h c a) (ih (g c a))

theorem placeWords_y_le (env : RenderEnv) (x mw lh : ℚ) (hlh : 0 ≤ lh) :
    ∀ (ws : List (List Char)) (cur : Cursor),
      cur.y ≤ (placeWords env x mw lh cur ws).y := by
  intro ws
  induction ws with
  | nil => intro cur; exact le_refl _
  | cons w ws ih =>
    intro cur
    by_cases hc : cur.x + env.width (w ++ [' ']) > x + mw ∧ cur.x > x
    · have heq : placeWords env x mw lh cur (w :: ws)
          = placeWords env x mw lh
              ⟨x + env.width (w ++ [' ']), cur.y + lh⟩ ws := by
        simp only [placeWords, if_pos hc]
      rw [heq]
      have h2 : cur.y + lh
          ≤ (placeWords env x mw lh
              ⟨x + env.width (w ++ [' ']), cur.y + lh⟩ ws).y := ih _
      linarith
    · have heq : placeWords env x mw lh cur (w :: ws)
          = placeWords env x mw lh
              ⟨cur.x + env.width (w ++ [' ']), cur.y⟩ ws := by
        simp only [placeWords, if_neg hc]
      rw [heq]
      exact ih _

set_option maxHeartbeats 1000000 in
theorem renderFormattedText_le (env : RenderEnv) (frags : List TextFragment)
    (x y mw lh : ℚ) (hlh : 0 ≤ lh) :
    y ≤ renderFormattedText env frags x y mw lh := by
  have h := foldl_cursor_y_le
    (fun cur f => placeWords env x mw lh cur (fieldsOf f.text))
    (fun c a => placeWords_y_le env x mw lh hlh (fieldsOf a.text) c)
    frags ⟨x, y⟩
  have hxy : Cursor.y ⟨x, y⟩ = y := rfl
  rw [hxy] at h
  unfold renderFormattedText
  linarith

theorem renderImageFile_le (env : RenderEnv) (path : List Char) (y : ℚ) :
    y ≤ renderImageFile env path y := by
  simp only [renderImageFile]
  split_ifs with h1 h2 h3 h4 h5 <;> try exact le_refl y
  · have hm : (5 : ℚ) < 190 - y := not_le.mp h4
    have hsc : 0 ≤ min (257 / (env.imageDims path).1)
        ((190 - y) / (env.imageDims path).2) :=
      le_min (div_nonneg (by norm_num) h5.1.le)
        (div_nonneg (by linarith) h5.2.le)
    have hprod := mul_nonneg h5.2.le hsc
    show y ≤ y + ((env.imageDims path).2 *
        min (257 / (env.imageDims path).1)
          ((190 - y) / (env.imageDims path).2)) + 5
    linarith
  · show y ≤ y + (0 : ℚ) + 5
    linarith

theorem renderHTMLImage_le (env : RenderEnv) (img : List Char) (y : ℚ) :
    y ≤ renderHTMLImage env img y := by
  unfold renderHTMLImage
  cases imgSrc img with
  | none => exact le_refl y
  | some src => exact renderImageFile_le env _ y

theorem renderHighlightedCode_yEnd_le (quiet : Bool) (slide : ℕ)
    (title : List Char) (toks : List Tok) (y : ℚ) :
    y ≤ (renderHighlightedCode quiet slide title toks y).yEnd := by
  have := cap_nonneg_120 (6 * ((splitTokensIntoLines toks).length : ℚ))
    (by positivity)
  show y ≤ y + _ + 12
  linarith

theorem renderCodePlain_yEnd_le (quiet : Bool) (slide : ℕ)
    (title : List Char) (code : List Char) (y : ℚ) :
    y ≤ (renderCodePlain quiet slide title code y).yEnd := by
  have := cap_nonneg_120 (6 * ((splitOnNl code).length : ℚ)) (by positivity)
  show y ≤ y + _ + 12
  linarith

theorem renderCode_le (env : RenderEnv) (quiet : Bool) (slide : ℕ)
    (title : List Char) (fn raw : List Char) (y : ℚ) :
    y ≤ renderCode env quiet slide title fn raw y := by
  unfold renderCode
  split
  · exact renderCodePlain_yEnd_le quiet slide title raw y
  · exact renderHighlightedCode_yEnd_le quiet slide title _ y

theorem renderMarkdownCodeBlock_le (env : RenderEnv) (quiet : Bool)
    (slide : ℕ) (title : List Char) (content : List Char) (y : ℚ) :
    y ≤ renderMarkdownCodeBlock env quiet slide title content y := by
  unfold renderMarkdownCodeBlock
  split
  · linarith
  · dsimp only
    split
    · exact renderCodePlain_yEnd_le quiet slide title _ y
    · exact renderHighlightedCode_yEnd_le quiet slide title _ y

theorem renderText_le (env : RenderEnv) (quiet : Bool) (slide : ℕ)
    (title : List Char) (ls : List (List Char)) (y : ℚ) :
    y ≤ renderText env quiet slide title ls y := by
  unfold renderText
  dsimp only
  split_ifs
  · exact renderMarkdownCodeBlock_le env quiet slide title _ y
  · linarith

theorem renderList_le (items : List (List Char)) (y : ℚ) :
    y ≤ renderList items y := by
  have h := foldl_y_le (fun y _ => y + 12)
    (fun y _ => le_add_of_nonneg_right (by norm_num)) items y
  unfold renderList
  linarith

theorem renderHTMLCode_le (env : RenderEnv) (quiet : Bool) (slide : ℕ)
    (title : List Char) (html : List Char) (y : ℚ) :
    y ≤ renderHTMLCode env quiet slide title html y := by
  unfold renderHTMLCode
  split
  · exact le_refl y
  · dsimp only
    split
    · exact renderCodePlain_yEnd_le quiet slide title _ y
    · exact renderHighlightedCode_yEnd_le quiet slide title _ y

theorem renderHTMLPlainText_le (html : List Char) (y : ℚ) :
    y ≤ renderHTMLPlainText html y := by
  unfold renderHTMLPlainText
  split_ifs
  · exact le_refl y
  · linarith

theorem renderHTMLParagraphs_le (env : RenderEnv) (html : List Char) (y : ℚ) :
    y ≤ renderHTMLParagraphs env html y := by
  apply foldl_y_le
  intro y0 m
  dsimp only
  split_ifs
  · exact le_refl y0
  · exact renderHTMLImage_le env _ y0
  · have := renderFormattedText_le env (parseHTMLFormatting (trimSpace m))
      20 y0 257 11 (by norm_num)
    linarith

theorem renderHTMLList_le (env : RenderEnv) (html : List Char) (y : ℚ) :
    y ≤ renderHTMLList env html y := by
  have h := foldl_y_le
    (fun y m =>
      renderFormattedText env (parseHTMLFormatting (trimSpace m)) 30 y 247 9 + 3)
    (fun y0 m => by
      show y0 ≤ renderFormattedText env (parseHTMLFormatting (trimSpace m))
        30 y0 247 9 + 3
      have := renderFormattedText_le env (parseHTMLFormatting (trimSpace m))
        30 y0 247 9 (by norm_num)
      linarith)
    (extractInners "<li>".toList "</li>".toList html) y
  unfold renderHTMLList
  linarith

theorem bqParasHeight_nonneg (env : RenderEnv) :
    ∀ paras : List (List Char), 0 ≤ bqParasHeight env paras := by
  intro paras
  induction paras with
  | nil => exact le_refl 0
  | cons p ps ih =>
    cases ps with
    | nil =>
      show (0 : ℚ) ≤ 11 * (bqLines env p : ℚ)
      positivity
    | cons q qs =>
      show (0 : ℚ) ≤ 11 * (bqLines env p : ℚ) + 3 + bqParasHeight env (q :: qs)
      have h1 : (0 : ℚ) ≤ (bqLines env p : ℚ) := Nat.cast_nonneg _
      linarith

theorem renderHTMLBlockquote_le (env : RenderEnv) (html : List Char) (y : ℚ) :
    y ≤ renderHTMLBlockquote env html y := by
  unfold renderHTMLBlockquote
  split
  · exact le_refl y
  · rename_i innerRaw tail heq
    split_ifs
    · exact le_refl y
    · linarith [bqParasHeight_nonneg env (bqParagraphsOf (trimSpace innerRaw))]

theorem renderHTMLMixed_le (env : RenderEnv) (quiet : Bool) (slide : ℕ)
    (title : List Char) (html : List Char) (y : ℚ) :
    y ≤ renderHTMLMixed env quiet slide title html y := by
  apply foldl_y_le
  intro y0 m0
  dsimp only
  split_ifs
  · exact le_refl y0
  · exact renderHTMLBlockquote_le env _ y0
  · exact renderHTMLCode_le env quiet slide title _ y0
  · exact renderHTMLParagraphs_le env _ y0
  · exact renderHTMLList_le env _ y0
  · exact le_refl y0

theorem le_ite {c : Prop} [Decidable c] {y a b : ℚ} (ha : y ≤ a)
    (hb : y ≤ b) : y ≤ if c then a else b := by
  split <;> assumption

theorem renderHTML_le (env : RenderEnv) (quiet : Bool) (slide : ℕ)
    (title : List Char) (html : List Char) (y : ℚ) :
    y ≤ renderHTML env quiet slide title html y := by
  unfold renderHTML
  dsimp only
  exact le_ite (renderHTMLMixed_le env quiet slide title html y)
    (le_ite (renderHTMLBlockquote_le env html y)
      (le_ite (renderHTMLCode_le env quiet slide title html y)
        (le_ite (renderHTMLList_le env html y)
          (le_ite (renderHTMLParagraphs_le env html y)
            (le_ite (renderHTMLImage_le env html y)
              (renderHTMLPlainText_le html y))))))

theorem renderElement_le (env : RenderEnv) (quiet : Bool) (slide : ℕ)
    (title : List Char) (e : Elem) (y : ℚ) :
    y ≤ renderElement env quiet slide title e y := by
  cases e with
  | text ls => exact renderText_le env quiet slide title ls y
  | list bs => exact renderList_le bs y
  | code fn raw => exact renderCode_le env quiet slide title fn raw y
  | html h => exact renderHTML_le env quiet slide title h y
  | link l u => show y ≤ y + 15; linarith
  | other => exact le_refl y

/-- C4: the vertical layout cursor never rewinds — for every dispatch
branch of `renderElement` (text, list, code, HTML with all its
sub-renderers, link, and the skip branch for unsupported elements) and
for the image renderer `renderImageFile` (including all of its error/skip
branches), the returned position is at least the start position, whatever
the oracle environment reports. -/
theorem c4_cursor_monotone :
    (∀ (env : RenderEnv) (quiet : Bool) (slide : ℕ) (title : List Char)
        (e : Elem) (y : ℚ), y ≤ renderElement env quiet slide title e y)
    ∧ (∀ (env : RenderEnv) (path : List Char) (y : ℚ),
        y ≤ renderImageFile env path y) :=
  ⟨fun env quiet slide title e y => renderElement_le env quiet slide title e y,
   fun env path y => renderImageFile_le env path y⟩

theorem firstOverflow_cons (env : RenderEnv) (q : Bool) (slide : ℕ)
    (title : List Char) (y : ℚ) (e : Elem) (es : List Elem) :
    firstOverflow env q slide title y (e :: es)
      = if renderElement env q slide title e y > 190 then some 0
        else (firstOverflow env q slide title
            (renderElement env q slide title e y) es).map (· + 1) := rfl

theorem renderSlideLoop_cons (env : RenderEnv) (q : Bool) (slide : ℕ)
    (title : List Char) (y : ℚ) (e : Elem) (es : List Elem) :
    renderSlideLoop env q slide title y (e :: es)
      = if renderElement env q slide title e y > 190 then
          ⟨[e], renderElement env q slide title e y,
           if q then [] else [⟨slide, title, renderElement env q slide title e y⟩]⟩
        else
          ⟨e :: (renderSlideLoop env q slide title
              (renderElement env q slide title e y) es).rendered,
           (renderSlideLoop env q slide title
              (renderElement env q slide title e y) es).yEnd,
           (renderSlideLoop env q slide title
              (renderElement env q slide title e y) es).diags⟩ := rfl

theorem yAfter_cons (env : RenderEnv) (q : Bool) (slide : ℕ)
    (title : List Char) (y : ℚ) (e : Elem) (es : List Elem) :
    yAfter env q slide title y (e :: es)
      = yAfter env q slide title (renderElement env q slide title e y) es := rfl

theorem renderSlideLoop_some (env : RenderEnv) (slide : ℕ)
    (title : List Char) :
    ∀ (elems : List Elem) (y : ℚ) (k : ℕ),
      firstOverflow env false slide title y elems = some k → y ≤ 190 →
      renderSlideLoop env false slide title y elems
        = ⟨elems.take (k + 1),
           yAfter env false slide title y (elems.take (k + 1)),
           [⟨slide, title, yAfter env false slide title y (elems.take (k + 1))⟩]⟩
      ∧ yAfter env false slide title y (elems.take (k + 1)) > 190
      ∧ (∀ j : ℕ, j ≤ k →
          yAfter env false slide title y (elems.take j) ≤ 190) := by
  intro elems
  induction elems with
  | nil => intro y k h _; simp [firstOverflow] at h
  | cons e es ih =>
    intro y k h hy0
    rw [firstOverflow_cons] at h
    by_cases hy : renderElement env false slide title e y > 190
    · rw [if_pos hy] at h
      have hk : k = 0 := by
        have := h.symm
        simp at this
        omega
      subst hk
      refine ⟨?_, ?_, ?_⟩
      · rw [renderSlideLoop_cons, if_pos hy]
        simp [yAfter, List.take]
      · simpa [yAfter, List.take] using hy
      · intro j hj
        have hj0 : j = 0 := by omega
        subst hj0
        simpa [yAfter] using hy0
    · rw [if_neg hy] at h
      obtain ⟨k', hk', rfl⟩ : ∃ k',
          firstOverflow env false slide title
            (renderElement env false slide title e y) es = some k'
          ∧ k = k' + 1 := by
        cases hfo : firstOverflow env false slide title
            (renderElement env false slide title e y) es with
        | none => rw [hfo] at h; simp at h
        | some m => rw [hfo] at h; simp at h; exact ⟨m, rfl, h.symm⟩
      have hrec := ih (renderElement env false slide title e y) k' hk'
        (not_lt.mp hy)
      refine ⟨?_, ?_, ?_⟩
      · rw [renderSlideLoop_cons, if_neg hy, hrec.1]
        simp [List.take_succ_cons, yAfter_cons]
      · rw [List.take_succ_cons, yAfter_cons]
        exact hrec.2.1
      · intro j hj
        cases j with
        | zero => simpa [yAfter] using hy0
        | succ j' =>
          rw [List.take_succ_cons, yAfter_cons]
          exact hrec.2.2 j' (by omega)

/-- C2 (amended): when some prefix of the slide's elements pushes the
cursor past the bottom boundary (y = 190), the slide renders the elements
up to AND INCLUDING the first element whose rendering crosses the
boundary — the crossing element is drawn before the check — none after
it, and (diagnostics not suppressed) exactly one overflow diagnostic
naming the slide, its title and the overflow position is emitted. -/
theorem c2_overflow_amended :
    ∀ (env : RenderEnv) (slide : ℕ) (title : List Char) (elems : List Elem)
      (k : ℕ),
      firstOverflow env false slide title 45 elems = some k →
      (renderSlide env false slide title elems).rendered = elems.take (k + 1)
      ∧ (renderSlide env false slide title elems).diags
          = [⟨slide, title, yAfter env false slide title 45 (elems.take (k + 1))⟩]
      ∧ (renderSlide env false slide title elems).diags.length = 1
      ∧ yAfter env false slide title 45 (elems.take (k + 1)) > 190
      ∧ (∀ j : ℕ, j ≤ k →
          yAfter env false slide title 45 (elems.take j) ≤ 190) := by
  intro env slide title elems k h
  have hmain := renderSlideLoop_some env slide title elems 45 k h (by norm_num)
  have h1 : renderSlide env false slide title elems
      = ⟨elems.take (k + 1),
         yAfter env false slide title 45 (elems.take (k + 1)),
         [⟨slide, title, yAfter env false slide title 45 (elems.take (k + 1))⟩]⟩ := by
    rw [renderSlide, hmain.1]
  rw [h1]
  exact ⟨rfl, rfl, rfl, hmain.2.1, hmain.2.2⟩

/-- The demonstration slide: eleven plain-text elements, each advancing
the cursor by 15 from the start position 45, so the tenth element (index
9) crosses the 190 boundary at y = 195. -/
def demoSlide : List Elem :=
  List.replicate 11 (Elem.text [['a']])

theorem renderElement_env0_text (y : ℚ) :
    renderElement env0 false 2 [] (Elem.text [['a']]) y = y + 15 := by
  show renderText env0 false 2 [] [['a']] y = y + 15
  have hc : containsSeq "```".toList (List.intercalate ['\n'] [['a']])
      = false := by decide
  unfold renderText
  dsimp only
  rw [hc]
  rfl

theorem firstOverflow_demo :
    firstOverflow env0 false 2 [] 45 demoSlide = some 9 := by
  simp only [demoSlide, List.replicate, firstOverflow_cons,
    renderElement_env0_text, firstOverflow]
  norm_num

/-- C2 counterexample: on the demonstration slide the first element whose
rendering crosses the boundary is the one at index 9 (cursor 180 before,
195 after), yet ten elements are rendered — the crossing element itself
is drawn before the loop stops, contradicting "up to, and not including,
the element that would cross the boundary". -/
theorem c2_overflow_counterexample :
    (renderSlide env0 false 2 [] demoSlide).rendered.length = 10
    ∧ (renderSlide env0 false 2 [] demoSlide).rendered ≠ demoSlide.take 9
    ∧ yAfter env0 false 2 [] 45 (demoSlide.take 9) ≤ 190
    ∧ yAfter env0 false 2 [] 45 (demoSlide.take 10) > 190 := by
  have hloop : renderSlide env0 false 2 [] demoSlide
      = ⟨List.replicate 10 (Elem.text [['a']]), 195, [⟨2, [], 195⟩]⟩ := by
    rw [renderSlide]
    simp only [demoSlide, List.replicate, renderSlideLoop_cons,
      renderElement_env0_text]
    norm_num
  refine ⟨by rw [hloop]; decide, by rw [hloop]; decide, ?_, ?_⟩
  · have h9 : demoSlide.take 9 = List.replicate 9 (Elem.text [['a']]) := by
      decide
    rw [h9]
    simp only [List.replicate, yAfter_cons, renderElement_env0_text, yAfter]
    norm_num
  · have h10 : demoSlide.take 10 = List.replicate 10 (Elem.text [['a']]) := by
      decide
    rw [h10]
    simp only [List.replicate, yAfter_cons, renderElement_env0_text, yAfter]
    norm_num

/-- C2 witness: the amended overflow behavior at the demonstration
slide — ten elements rendered, exactly one diagnostic. -/
theorem c2_overflow_amended_witness :
    (renderSlide env0 false 2 [] demoSlide).rendered = demoSlide.take 10
    ∧ (renderSlide env0 false 2 [] demoSlide).diags.length = 1 := by
  have h := c2_overflow_amended env0 2 [] demoSlide 9 firstOverflow_demo
  exact ⟨h.1, h.2.2.1⟩

end P2PDF
